import Mathlib

/-!
Verification of the lazily-loaded Azure tree data provider and the App
Service workflow functions of this repository (SiteWrapper.ts,
AzureTreeDataProvider / AzureParentNode, editScmType, deleteSite,
deployRunFromZip, parseAzureResourceId).

JavaScript strings whose ordering or splitting matters (tree-item labels,
resource ids) are embedded as lists of characters, so that every operation
reduces in the kernel; strings that are only compared for equality or
carried along (context values, messages, deployment ids) stay `String`.
Stateful methods become pure functions from an explicit state (plus the
outcomes of external calls, which are inputs) to a new state; methods that
throw return `Except`.
-/

namespace AzureTools

/-! ### Character-list strings and the comparator of the tree -/

/-- JavaScript strings used where ordering or splitting matters, as lists
of characters. -/
abbrev Str := List Char

/-- Model of JavaScript `a.localeCompare(b)` under the default locale,
taken as plain lexicographic comparison of the character sequences:
`-1` when `a` sorts before `b`, `0` when they are equal, `1` otherwise. -/
def localeCompare : Str → Str → Int
  | [], [] => 0
  | [], _ :: _ => -1
  | _ :: _, [] => 1
  | a :: as, b :: bs => if a < b then -1 else if b < a then 1 else localeCompare as bs

/-- One externally supplied tree item (the resource descriptor data a node
wraps): its label, its context value and its optional id. -/
structure TreeItemData where
  label : Str
  contextValue : String
  itemId : Option String
deriving DecidableEq

/-- One `AzureNode`. JavaScript nodes are distinct heap objects even when
their tree items coincide (`createNewNode` allocates a fresh node per
item), so a node carries an allocation number `nodeId` as its identity. -/
structure Node where
  nodeId : Nat
  treeItem : TreeItemData
deriving DecidableEq

/-- The ordering a JavaScript sort comparator `cmp` induces: `a` may stand
before `b` exactly when `cmp a b ≤ 0`. -/
def cmpLe (cmp : Node → Node → Int) (a b : Node) : Prop := cmp a b ≤ 0

instance (cmp : Node → Node → Int) : DecidableRel (cmpLe cmp) :=
  fun a b => inferInstanceAs (Decidable (cmp a b ≤ 0))

/-- The default sort callback of `AzureParentNode.loadMoreChildren`, used
when the tree item supplies no `compareChildren`:
`n1.treeItem.label.localeCompare(n2.treeItem.label)`. -/
def defaultSortCallback (n1 n2 : Node) : Int :=
  localeCompare n1.treeItem.label n2.treeItem.label

/-- The label ordering `addNodeToCache` walks by: it splices the new node
in before the first cached node with
`node.treeItem.label.localeCompare(cached[i].treeItem.label) < 1`; on
integer comparator values `< 1` is `≤ 0`. -/
def labelLe (a b : Node) : Prop :=
  localeCompare a.treeItem.label b.treeItem.label ≤ 0

instance : DecidableRel labelLe :=
  fun a b => inferInstanceAs (Decidable (localeCompare a.treeItem.label b.treeItem.label ≤ 0))

/-! ### The parent node's child cache (AzureParentNode) -/

/-- The mutable state of one `AzureParentNode`: the child cache
(`undefined` before the first load), the transient list of placeholder
nodes shown while children are being created, an allocation counter for
fresh node identities, and a count of the parent-scoped refresh
notifications (`treeDataProvider.refresh(this, false)`) fired so far. -/
structure ParentState where
  cachedChildren : Option (List Node)
  creatingNodes : List Node
  nextId : Nat
  refreshCount : Nat
deriving DecidableEq

/-- A parent node as first constructed: no cache, no placeholders. -/
def initState : ParentState :=
  { cachedChildren := none, creatingNodes := [], nextId := 0, refreshCount := 0 }

/-- The cached child list an observer sees (empty when the cache is not
populated), as in `getCachedChildren`. -/
def cacheContent (s : ParentState) : List Node := s.cachedChildren.getD []

/-- Wraps each fetched tree item in a fresh node, as `createNewNode` does
once per item, numbering the allocations from `startId`. -/
def mkNodes : Nat → List TreeItemData → List Node
  | _, [] => []
  | startId, t :: ts => { nodeId := startId, treeItem := t } :: mkNodes (startId + 1) ts

/-- Model of `AzureParentNode.loadMoreChildren`. An undefined cache is
initialised to `[]` (and `clearCache = true` is passed to the external
fetch, whose returned page is the input `page` here); the fetched items
are wrapped in fresh nodes, concatenated onto the cache and the whole
cache re-sorted with the active sort callback `cmp` (the tree item's
`compareChildren` when present, else `defaultSortCallback`). -/
def loadMoreChildren (cmp : Node → Node → Int) (page : List TreeItemData)
    (s : ParentState) : ParentState :=
  let cached : List Node := s.cachedChildren.getD []
  let newNodes : List Node := mkNodes s.nextId page
  { cachedChildren := some (List.insertionSort (cmpLe cmp) (cached ++ newNodes))
    creatingNodes := s.creatingNodes
    nextId := s.nextId + page.length
    refreshCount := s.refreshCount }

/-- Model of `AzureParentNode.getCachedChildren`: populates the cache with
one `loadMoreChildren` call when it is undefined, then returns it. -/
def getCachedChildren (cmp : Node → Node → Int) (page : List TreeItemData)
    (s : ParentState) : List Node × ParentState :=
  match s.cachedChildren with
  | none =>
    let s1 := loadMoreChildren cmp page s
    (cacheContent s1, s1)
  | some l => (l, s)

/-- Model of `AzureParentNode.clearCache`. -/
def clearCache (s : ParentState) : ParentState :=
  { s with cachedChildren := none }

/-- Model of `AzureParentNode.addNodeToCache`: when the cache is
populated, the loop finds the first index whose label compares `< 1`
against the new node's label and splices the node in there (the end of
the list by default) — exactly an ordered insert under `labelLe` — then
fires a parent-scoped refresh; when the cache is undefined nothing
happens. Note the walk always compares labels, whatever comparator
`loadMoreChildren` sorts with. -/
def addNodeToCache (node : Node) (s : ParentState) : ParentState :=
  match s.cachedChildren with
  | none => s
  | some l =>
    { s with
      cachedChildren := some (List.orderedInsert labelLe node l)
      refreshCount := s.refreshCount + 1 }

/-- Model of `AzureParentNode.removeNodeFromCache`: when the cache is
populated and holds the node, `splice(indexOf(node), 1)` removes its first
occurrence and a parent-scoped refresh is fired. -/
def removeNodeFromCache (node : Node) (s : ParentState) : ParentState :=
  match s.cachedChildren with
  | none => s
  | some l =>
    if node ∈ l then
      { s with
        cachedChildren := some (l.erase node)
        refreshCount := s.refreshCount + 1 }
    else s

/-- Modelled from the spec: `CreatingTreeItem` (its file is not under
src/) is the transient placeholder item shown while a child is being
created; only its label matters to the cache model. -/
def creatingTreeItem (label : Str) : TreeItemData :=
  { label := label, contextValue := "creatingItem", itemId := none }

/-- The `finally` block of `createChild`: when a placeholder was
installed, `splice(indexOf(creatingNode), 1)` removes it from
`creatingNodes` (it is present there: it was pushed and nothing removes it
in between) and one more parent-scoped refresh is fired. -/
def finallyCreating (creatingNode : Option Node) (s : ParentState) : ParentState :=
  match creatingNode with
  | none => s
  | some n =>
    { s with
      creatingNodes := s.creatingNodes.erase n
      refreshCount := s.refreshCount + 1 }

instance {e a : Type} [DecidableEq e] [DecidableEq a] : DecidableEq (Except e a) := fun x y =>
  match x, y with
  | Except.ok v, Except.ok w =>
    if h : v = w then isTrue (by rw [h]) else isFalse (fun hh => h (by injection hh))
  | Except.error v, Except.error w =>
    if h : v = w then isTrue (by rw [h]) else isFalse (fun hh => h (by injection hh))
  | Except.ok _, Except.error _ => isFalse (fun hh => Except.noConfusion hh)
  | Except.error _, Except.ok _ => isFalse (fun hh => Except.noConfusion hh)

/-- How `createChild` can fail. -/
inductive CreateErr where
  | notImplemented
  | creationFailed
deriving DecidableEq

/-- Model of `AzureParentNode.createChild`. `supportsCreate` models
whether `treeItem.createChild` exists (else a `NotImplementedError` is
thrown); `progressLabel` models whether — and with which label — the
external `createChild` invoked the progress callback, which pushes a
placeholder node onto `creatingNodes` and fires a parent-scoped refresh;
`creation` is the outcome of that external call. On success the new item
is wrapped in a fresh node and inserted with `addNodeToCache`; the
`finally` block (`finallyCreating`) runs before the result or the error
leaves the function. -/
def createChild (supportsCreate : Bool) (progressLabel : Option Str)
    (creation : Except Unit TreeItemData) (s0 : ParentState) :
    Except CreateErr Node × ParentState :=
  if supportsCreate then
    let pushed : Option Node × ParentState :=
      match progressLabel with
      | some label =>
        let n : Node := { nodeId := s0.nextId, treeItem := creatingTreeItem label }
        (some n,
         { s0 with
             creatingNodes := s0.creatingNodes ++ [n]
             nextId := s0.nextId + 1
             refreshCount := s0.refreshCount + 1 })
      | none => (none, s0)
    let creatingNode := pushed.1
    let s1 := pushed.2
    match creation with
    | Except.ok t =>
      let newNode : Node := { nodeId := s1.nextId, treeItem := t }
      let s2 : ParentState := { s1 with nextId := s1.nextId + 1 }
      let s3 := addNodeToCache newNode s2
      (Except.ok newNode, finallyCreating creatingNode s3)
    | Except.error _ =>
      (Except.error CreateErr.creationFailed, finallyCreating creatingNode s1)
  else
    (Except.error CreateErr.notImplemented, s0)

/-- Running a sequence of `loadMoreChildren` calls (one fetched page per
call) against a parent node. -/
def runLoadPages (cmp : Node → Node → Int) (pages : List (List TreeItemData))
    (s : ParentState) : ParentState :=
  pages.foldl (fun acc page => loadMoreChildren cmp page acc) s

/-- The cache operations of claim C2, with the external inputs each one
needs. -/
inductive CacheOp where
  | loadMore (page : List TreeItemData)
  | create (progressLabel : Option Str) (creation : Except Unit TreeItemData)
  | addNode (node : Node)
  | removeNode (node : Node)
deriving DecidableEq

/-- Applies one cache operation to a parent node whose active sort
callback is `cmp`. -/
def applyOp (cmp : Node → Node → Int) (s : ParentState) : CacheOp → ParentState
  | CacheOp.loadMore page => loadMoreChildren cmp page s
  | CacheOp.create lbl res => (createChild true lbl res s).2
  | CacheOp.addNode n => addNodeToCache n s
  | CacheOp.removeNode n => removeNodeFromCache n s

/-- Runs a sequence of cache operations. -/
def runOps (cmp : Node → Node → Int) (ops : List CacheOp) (s : ParentState) : ParentState :=
  ops.foldl (applyOp cmp) s

/-! ### The node picker (AzureTreeDataProvider.showNodePicker) -/

/-- What the picker walk sees of a node: whether it is an
`AzureParentNode`, and its context value. -/
structure PickNode where
  isParent : Bool
  contextValue : String
deriving DecidableEq

/-- The error `showNodePicker` throws on reaching a non-parent node whose
context value is not expected. -/
def noResourcesMessage : String := "No matching resources found."

/-- The loop of `AzureTreeDataProvider.showNodePicker`: while the current
node's context value is not among the expected ones, descend via
`pickChildNode` when the node is a parent, else throw the distinct
no-matching-resources error. The node each `pickChildNode` call resolves
to (a user-driven choice among cached children, create-new and load-more
entries) is supplied in order by `picks`; a `none` result models a run
that needs more `pickChildNode` results than `picks` supplies (the loop
would continue). -/
def showNodePickerLoop (expected : List String) : PickNode → List PickNode →
    Option (Except String PickNode)
  | node, [] =>
    if node.contextValue ∈ expected then some (Except.ok node)
    else if node.isParent then none
    else some (Except.error noResourcesMessage)
  | node, p :: rest =>
    if node.contextValue ∈ expected then some (Except.ok node)
    else if node.isParent then showNodePickerLoop expected p rest
    else some (Except.error noResourcesMessage)

/-! ### The zip deployment workflow (SiteWrapper.deployZip, deployRunFromZip) -/

/-- What kind of path the deploy call received, as the workflow probes it:
a file with extension zip, a directory, or anything else. -/
inductive PathKind where
  | zipFile
  | directory
  | other
deriving DecidableEq

/-- The outcome of the external calls inside the try block
(`zipPushDeploy` + `waitForDeploymentToComplete`, or the storage steps of
`deployRunFromZip`): success, an error whose transport response carries a
body, or any other error. -/
inductive PushOutcome where
  | success
  | errorWithBody (body : String)
  | errorNoBody
deriving DecidableEq

/-- The ways the zip deployment workflow can end without success. -/
inductive DeployZipErr where
  | userCancelled
  | kuduFailure
  | notAZip
  | responseBody (body : String)
  | pushFailure
deriving DecidableEq

/-- What one zip deployment call did to the filesystem, besides its
result: how many zip files it created, whether a zip it created still
exists when the call returns, and whether the input file was deleted. -/
structure DeployZipTrace where
  result : Except DeployZipErr Unit
  zipsCreated : Nat
  createdZipAtReturn : Bool
  inputDeleted : Bool
deriving DecidableEq

/-- Translates the try-block outcome through the catch block: an error
with a response body is rethrown as a new error holding that body
(autorest workaround), any other error is rethrown as is. -/
def pushResultToExcept : PushOutcome → Except DeployZipErr Unit
  | PushOutcome.success => Except.ok ()
  | PushOutcome.errorWithBody body => Except.error (DeployZipErr.responseBody body)
  | PushOutcome.errorNoBody => Except.error DeployZipErr.pushFailure

/-- Model of `SiteWrapper.deployZip`. In order: when `confirmDeployment`
is set and the user does not confirm, throw a user cancellation (no zip
exists yet); obtaining the Kudu client (`kuduOk`) may throw; a zip-file
input is pushed as is, a directory is zipped first (`createdZip = true`,
one zip created), any other path throws the not-a-zip error; the push and
poll run in a try whose catch rethrows (see `pushResultToExcept`) and
whose finally deletes the created zip — so a created zip never survives
the call, and a zip-file input is never deleted. -/
def deployZip (kind : PathKind) (confirmDeployment confirmYes kuduOk : Bool)
    (push : PushOutcome) : DeployZipTrace :=
  if confirmDeployment && !confirmYes then
    { result := Except.error DeployZipErr.userCancelled
      zipsCreated := 0, createdZipAtReturn := false, inputDeleted := false }
  else if !kuduOk then
    { result := Except.error DeployZipErr.kuduFailure
      zipsCreated := 0, createdZipAtReturn := false, inputDeleted := false }
  else
    match kind with
    | PathKind.zipFile =>
      { result := pushResultToExcept push
        zipsCreated := 0, createdZipAtReturn := false, inputDeleted := false }
    | PathKind.directory =>
      { result := pushResultToExcept push
        zipsCreated := 1, createdZipAtReturn := false, inputDeleted := false }
    | PathKind.other =>
      { result := Except.error DeployZipErr.notAZip
        zipsCreated := 0, createdZipAtReturn := false, inputDeleted := false }

/-- Model of `deployRunFromZip` (the storage variant): no confirmation and
no Kudu client step; the same resolve-to-zip branching; the storage upload
and app-setting update stand in the try block (`storage`), with the same
catch and the same zip-deleting finally. -/
def deployRunFromZip (kind : PathKind) (storage : PushOutcome) : DeployZipTrace :=
  match kind with
  | PathKind.zipFile =>
    { result := pushResultToExcept storage
      zipsCreated := 0, createdZipAtReturn := false, inputDeleted := false }
  | PathKind.directory =>
    { result := pushResultToExcept storage
      zipsCreated := 1, createdZipAtReturn := false, inputDeleted := false }
  | PathKind.other =>
    { result := Except.error DeployZipErr.notAZip
      zipsCreated := 0, createdZipAtReturn := false, inputDeleted := false }

/-! ### The deployment status poll (SiteWrapper.waitForDeploymentToComplete) -/

/-- One deployment result as the Kudu service reports it. -/
structure DeployResult where
  id : Option String
  isTemp : Bool
  complete : Bool
  progress : Option String
deriving DecidableEq

/-- The body of `if (!deployment.isTemp && deployment.id)`: switch from
the current deployment id to the reported permanent id as soon as a
non-temporary deployment with a (truthy, hence non-empty) id is observed.
-/
def nextDeploymentId (current : String) (d : DeployResult) : String :=
  match d.id with
  | some s => if d.isTemp = false ∧ s ≠ "" then s else current
  | none => current

/-- The full observable trace of one `waitForDeploymentToComplete` call:
the returned deployment (none when the modelling fuel ran out with the
loop still going), every id queried, every progress text logged, and the
duration of every `setTimeout` wait. -/
structure PollTrace where
  result : Option DeployResult
  queriedIds : List String
  logs : List String
  sleeps : List Nat
deriving DecidableEq

/-- What `if (deployment.progress) { this.log(...) }` appends to the log:
the progress text when there is one. -/
def progressLogs (d : DeployResult) : List String :=
  match d.progress with
  | some p => [p]
  | none => []

/-- The while loop of `waitForDeploymentToComplete`. `svc n i` is what the
n-th `kuduClient.deployment.getResult(i)` call returns; `k` counts the
calls already made, `deploymentId` and `deployment` are the loop
variables. Each iteration of the incomplete case updates the id, logs the
progress text when there is one, waits `pollingInterval` and re-queries;
`fuel` bounds how many further queries the model unrolls. -/
def pollLoop (svc : Nat → String → DeployResult) (pollingInterval : Nat) :
    Nat → Nat → String → DeployResult → PollTrace
  | fuel, k, deploymentId, deployment =>
    if deployment.complete then
      { result := some deployment, queriedIds := [], logs := [], sleeps := [] }
    else
      let deploymentId1 := nextDeploymentId deploymentId deployment
      match fuel with
      | 0 => { result := none, queriedIds := [], logs := progressLogs deployment, sleeps := [] }
      | fuel1 + 1 =>
        let next := svc k deploymentId1
        let rest := pollLoop svc pollingInterval fuel1 (k + 1) deploymentId1 next
        { result := rest.result
          queriedIds := deploymentId1 :: rest.queriedIds
          logs := progressLogs deployment ++ rest.logs
          sleeps := pollingInterval :: rest.sleeps }

/-- Model of `SiteWrapper.waitForDeploymentToComplete`: the first query
uses the sentinel id latest, then the loop runs (the source's default
polling interval is 5000 ms; the interval is a parameter here as there).
-/
def waitForDeploymentToComplete (svc : Nat → String → DeployResult) (fuel : Nat)
    (pollingInterval : Nat) : PollTrace :=
  let first := svc 0 "latest"
  let t := pollLoop svc pollingInterval fuel 1 "latest" first
  { t with queriedIds := "latest" :: t.queriedIds }

/-- The id the n-th `getResult` call queries under, as determined by the
service's responses: latest at first, then updated by `nextDeploymentId`
after each response. -/
def queryIdAt (svc : Nat → String → DeployResult) : Nat → String
  | 0 => "latest"
  | k + 1 => nextDeploymentId (queryIdAt svc k) (svc k (queryIdAt svc k))

/-- The deployment result the n-th `getResult` call observes. -/
def obsAt (svc : Nat → String → DeployResult) (n : Nat) : DeployResult :=
  svc n (queryIdAt svc n)

/-! ### The SCM edit workflow (editScmType, showScmPrompt) -/

/-- Modelled from the spec: the `ScmType` enum (its file is not under
src/); the spec lists the deployment source mechanisms as none, local git
and GitHub, with these string values used in the site configuration. -/
def scmTypes : List String := ["None", "LocalGit", "GitHub"]

/-- A complete site configuration object, as the backing API requires for
updates: the `scmType` property plus everything else in the file
(opaque here). -/
structure SiteConfig where
  scmType : String
  otherSettings : List (String × String)
deriving DecidableEq

/-- The ways the SCM edit workflow fails. -/
inductive ScmEditErr where
  | userCancelled
  | configurationError (msg : String)
deriving DecidableEq

/-- The configuration error thrown when GitHub is selected while another
deployment source is configured. -/
def configurationErrorMessage : String :=
  "Configuration type must be set to \"None\" to connect to a GitHub repository."

/-- Model of `showScmPrompt` (shared by the part_000 `editScmType` and
`SiteWrapper.showScmPrompt`): the quick pick marks the entry for the
current source with the Current-source description, and a selection with
that description is treated as a cancel; any other selection returns its
label. The user's selection is the input `choice`. -/
def showScmPrompt (currentScmType choice : String) : Except ScmEditErr String :=
  if choice = currentScmType then Except.error ScmEditErr.userCancelled
  else Except.ok choice

/-- What one `editScmType` call did: its result, the complete
configuration object sent to `updateConfiguration` (if that call was
made), and whether the GitHub connection flow was invoked. -/
structure ScmEditTrace where
  result : Except ScmEditErr String
  updateCalledWith : Option SiteConfig
  gitHubConnectCalled : Bool
deriving DecidableEq

/-- Model of `editScmType` (part_000): prompt for a new source; selecting
GitHub demands the current type be None (an Azure limitation) — else the
configuration error is thrown with no update call — and then delegates to
`connectToGitHub`; any other new type is written into the full
configuration object and sent with `updateConfiguration`. The new type is
returned. `connectToGitHub` is not under src/ and is modelled from the
spec as an external GitHub-connection flow of its own, issuing no
`updateConfiguration` call here. -/
def editScmType (config : SiteConfig) (choice : String) : ScmEditTrace :=
  match showScmPrompt config.scmType choice with
  | Except.error e =>
    { result := Except.error e, updateCalledWith := none, gitHubConnectCalled := false }
  | Except.ok newScmType =>
    if newScmType = "GitHub" then
      if config.scmType ≠ "None" then
        { result := Except.error (ScmEditErr.configurationError configurationErrorMessage)
          updateCalledWith := none
          gitHubConnectCalled := false }
      else
        { result := Except.ok newScmType
          updateCalledWith := none
          gitHubConnectCalled := true }
    else
      { result := Except.ok newScmType
        updateCalledWith := some { scmType := newScmType, otherSettings := config.otherSettings }
        gitHubConnectCalled := false }

/-! ### The site deletion workflow (SiteWrapper.deleteSite) -/

/-- The user's answer to the delete-the-empty-plan prompt: yes, no, or the
dialog dismissed (`undefined`). -/
inductive PlanPromptAnswer where
  | yes
  | no
  | dismissed
deriving DecidableEq

/-- The delete call the workflow finally issues: `deleteSlot` for a
deployment slot, else `deleteMethod` carrying the
`deleteEmptyServerFarm` flag. -/
inductive DeleteCall where
  | slotDelete
  | siteDelete (deleteEmptyServerFarm : Bool)
deriving DecidableEq

/-- The deletion workflow fails only by user cancellation. -/
inductive DeleteErr where
  | userCancelled
deriving DecidableEq

/-- What one `deleteSite` call did: its outcome, how many times the App
Service plan was fetched, and whether the plan-deletion prompt was shown.
-/
structure DeleteSiteTrace where
  result : Except DeleteErr DeleteCall
  planLookups : Nat
  planPromptShown : Bool
deriving DecidableEq

/-- Model of `SiteWrapper.deleteSite`: confirm (anything but yes throws a
user cancellation); for a non-slot the owning plan is fetched, and when it
has fewer than two sites the plan-deletion prompt is shown (a dismissed
dialog throws a user cancellation, and `deletePlan` is set exactly when
the answer is yes); a slot skips the plan lookup and the prompt entirely;
then the delete call is issued. -/
def deleteSite (isSlot confirmYes : Bool) (planNumberOfSites : Nat)
    (planPromptAnswer : PlanPromptAnswer) : DeleteSiteTrace :=
  if !confirmYes then
    { result := Except.error DeleteErr.userCancelled
      planLookups := 0, planPromptShown := false }
  else
    let planLookups : Nat := if isSlot then 0 else 1
    if isSlot = false ∧ planNumberOfSites < 2 then
      match planPromptAnswer with
      | PlanPromptAnswer.dismissed =>
        { result := Except.error DeleteErr.userCancelled
          planLookups := planLookups, planPromptShown := true }
      | PlanPromptAnswer.yes =>
        { result := Except.ok (DeleteCall.siteDelete true)
          planLookups := planLookups, planPromptShown := true }
      | PlanPromptAnswer.no =>
        { result := Except.ok (DeleteCall.siteDelete false)
          planLookups := planLookups, planPromptShown := true }
    else
      { result := Except.ok (if isSlot then DeleteCall.slotDelete else DeleteCall.siteDelete false)
        planLookups := planLookups, planPromptShown := false }

/-! ### The provider's getChildren error shield (AzureTreeDataProvider.getChildren) -/

/-- What one node shows the host UI: its label and context value. -/
structure UINode where
  label : String
  contextValue : String
deriving DecidableEq

/-- Modelled from the spec: `parseError` (its file is not under src/)
extracts a human-readable message from a thrown value; errors reach the
catch block carrying their parsed message. -/
structure ParsedError where
  message : String
deriving DecidableEq

/-- Model of `AzureTreeDataProvider.getChildren`: the whole inner
computation (telemetry wrapper with rethrow, cache access or root
enumeration) is represented by its outcome `inner`; the surrounding
try/catch returns the computed nodes, or renders any thrown error as one
synthetic error leaf labelled with the parsed message. -/
def getChildren (inner : Except ParsedError (List UINode)) : List UINode :=
  match inner with
  | Except.ok nodes => nodes
  | Except.error e =>
    [{ label := "Error: " ++ e.message, contextValue := "azureextensionui.error" }]

/-! ### parseAzureResourceId -/

/-- JavaScript `s.split(sep)` for a one-character separator: the list of
maximal separator-free runs, including empty ones (the split of the empty
string is one empty part). -/
def splitOnChar (sep : Char) : Str → List Str
  | [] => [[]]
  | c :: rest =>
    let r := splitOnChar sep rest
    if c = sep then [] :: r
    else
      match r with
      | [] => [[c]]
      | g :: gs => (c :: g) :: gs

/-- The error `parseAzureResourceId` throws. -/
def invalidIdMessage : String := "Invalid Account ID."

/-- The pairing loop of `parseAzureResourceId` (`for i += 2`): each key
segment with the following value segment, throwing on an empty key or
value. The JavaScript object is modelled as the list of assignments in
order. -/
def pairUp : List Str → Except String (List (Str × Str))
  | [] => Except.ok []
  | [_] => Except.error invalidIdMessage
  | k :: v :: rest =>
    if k = [] ∨ v = [] then Except.error invalidIdMessage
    else (pairUp rest).map (fun l => (k, v) :: l)

/-- Model of `parseAzureResourceId`: reject a falsy (empty) id, an id
shorter than two characters or one not starting with a slash; split the
rest after the leading slash on slashes; reject an odd number of parts;
pair the parts up. -/
def parseAzureResourceId (resourceId : Str) : Except String (List (Str × Str)) :=
  if resourceId = [] ∨ resourceId.length < 2 ∨ resourceId.take 1 ≠ ['/'] then
    Except.error invalidIdMessage
  else if (splitOnChar '/' (resourceId.drop 1)).length % 2 ≠ 0 then
    Except.error invalidIdMessage
  else
    pairUp (splitOnChar '/' (resourceId.drop 1))

/-- The pairing the claim describes: the segment at each even index `2*i`
paired with the segment at the following odd index `2*i + 1`. -/
def evenOddPairs (parts : List Str) : List (Str × Str) :=
  (List.range (parts.length / 2)).map
    (fun i => (parts.getD (2 * i) [], parts.getD (2 * i + 1) []))

/-! ### Shared example inputs for witnesses and counterexamples -/

/-- A tree item with just a label. -/
def itemOfLabel (label : Str) : TreeItemData :=
  { label := label, contextValue := "item", itemId := none }

/-- A reversed label comparator, standing for a custom `compareChildren`.
-/
def cmpRev (n1 n2 : Node) : Int :=
  localeCompare n2.treeItem.label n1.treeItem.label

/-- Two pages of fetched children, as in the spec's end-to-end example. -/
def pagesExample : List (List TreeItemData) :=
  [[itemOfLabel "b".data, itemOfLabel "a".data], [itemOfLabel "c".data]]

/-- A parent state with a populated, empty cache. -/
def cacheSt : ParentState :=
  { cachedChildren := some [], creatingNodes := [], nextId := 0, refreshCount := 0 }

/-- A service that reports an incomplete temporary deployment with a
permanent id available, then a complete one. -/
def svcExample (n : Nat) (_ : String) : DeployResult :=
  if n = 0 then
    { id := some "d1", isTemp := false, complete := false, progress := some "Building" }
  else
    { id := some "d1", isTemp := false, complete := true, progress := none }

/-- A site configuration whose current SCM type is None. -/
def cfgNone : SiteConfig := { scmType := "None", otherSettings := [] }

/-- A site configuration whose current SCM type is LocalGit, with one
other setting standing for the rest of the configuration file. -/
def cfgLocalGit : SiteConfig :=
  { scmType := "LocalGit", otherSettings := [("alwaysOn", "true")] }

/-! ### Properties of the comparator -/

theorem localeCompare_total : ∀ a b : Str, localeCompare a b ≤ 0 ∨ localeCompare b a ≤ 0 := by
  intro a
  induction a with
  | nil => intro b; cases b <;> simp [localeCompare]
  | cons x xs ih =>
    intro b
    cases b with
    | nil => simp [localeCompare]
    | cons y ys =>
      by_cases h1 : x < y
      · left; simp [localeCompare, h1]
      · by_cases h2 : y < x
        · right; simp [localeCompare, h2]
        · rcases ih ys with h | h
          · left; simp [localeCompare, h1, h2, h]
          · right; simp [localeCompare, h1, h2, h]

theorem localeCompare_trans : ∀ a b c : Str,
    localeCompare a b ≤ 0 → localeCompare b c ≤ 0 → localeCompare a c ≤ 0 := by
  intro a
  induction a with
  | nil => intro b c _ _; cases c <;> simp [localeCompare]
  | cons x xs ih =>
    intro b c hab hbc
    cases b with
    | nil => simp [localeCompare] at hab
    | cons y ys =>
      cases c with
      | nil => simp [localeCompare] at hbc
      | cons z zs =>
        by_cases hxy : x < y
        · by_cases hyz : y < z
          · have hxz : x < z := lt_trans hxy hyz
            simp [localeCompare, hxz]
          · by_cases hzy : z < y
            · simp [localeCompare, hyz, hzy] at hbc
            · have hyz' : y = z := le_antisymm (le_of_not_lt hzy) (le_of_not_lt hyz)
              subst hyz'
              simp [localeCompare, hxy]
        · by_cases hyx : y < x
          · simp [localeCompare, hxy, hyx] at hab
          · have hxy' : x = y := le_antisymm (le_of_not_lt hyx) (le_of_not_lt hxy)
            subst hxy'
            by_cases hxz : x < z
            · simp [localeCompare, hxz]
            · by_cases hzx : z < x
              · simp [localeCompare, hxz, hzx] at hbc
              · simp [localeCompare, hxy, hyx] at hab
                simp [localeCompare, hxz, hzx] at hbc ⊢
                exact ih ys zs hab hbc

theorem labelLe_total : ∀ a b : Node, labelLe a b ∨ labelLe b a :=
  fun a b => localeCompare_total a.treeItem.label b.treeItem.label

theorem labelLe_trans : ∀ a b c : Node, labelLe a b → labelLe b c → labelLe a c :=
  fun a b c hab hbc =>
    localeCompare_trans a.treeItem.label b.treeItem.label c.treeItem.label hab hbc

/-! ### Fresh nodes -/

theorem mkNodes_map_treeItem : ∀ (startId : Nat) (ts : List TreeItemData),
    (mkNodes startId ts).map Node.treeItem = ts := by
  intro startId ts
  induction ts generalizing startId with
  | nil => rfl
  | cons t ts ih => simp [mkNodes, ih]

theorem mem_mkNodes_nodeId : ∀ {startId : Nat} {ts : List TreeItemData} {n : Node},
    n ∈ mkNodes startId ts → startId ≤ n.nodeId ∧ n.nodeId < startId + ts.length := by
  intro startId ts
  induction ts generalizing startId with
  | nil => intro n h; simp [mkNodes] at h
  | cons t ts ih =>
    intro n h
    simp only [mkNodes, List.mem_cons] at h
    rcases h with h | h
    · subst h; simp
    · have := ih h
      simp only [List.length_cons]
      omega

theorem mkNodes_nodup : ∀ (startId : Nat) (ts : List TreeItemData),
    (mkNodes startId ts).Nodup := by
  intro startId ts
  induction ts generalizing startId with
  | nil => simp [mkNodes]
  | cons t ts ih =>
    simp only [mkNodes, List.nodup_cons]
    refine ⟨fun hmem => ?_, ih (startId + 1)⟩
    have := (mem_mkNodes_nodeId hmem).1
    simp at this

/-! ### The sorted, duplicate-free cache after load-more sequences (C1) -/

/-- The cache invariant a sequence of loads maintains: the cached items
are a permutation of everything fetched so far, every cached node's
identity is below the allocation counter, and the cached nodes are
pairwise distinct. -/
def goodCache (s : ParentState) (fetched : List TreeItemData) : Prop :=
  ((cacheContent s).map Node.treeItem).Perm fetched ∧
  (∀ n ∈ cacheContent s, n.nodeId < s.nextId) ∧
  (cacheContent s).Nodup

theorem goodCache_init : goodCache initState [] := by
  refine ⟨?_, ?_, ?_⟩ <;> simp [initState, cacheContent]

theorem cacheContent_loadMoreChildren (cmp : Node → Node → Int)
    (page : List TreeItemData) (s : ParentState) :
    cacheContent (loadMoreChildren cmp page s) =
      List.insertionSort (cmpLe cmp) (cacheContent s ++ mkNodes s.nextId page) := by
  simp [loadMoreChildren, cacheContent]

theorem goodCache_loadMoreChildren (cmp : Node → Node → Int) (page : List TreeItemData)
    {s : ParentState} {fetched : List TreeItemData} (h : goodCache s fetched) :
    goodCache (loadMoreChildren cmp page s) (fetched ++ page) := by
  obtain ⟨hperm, hids, hdup⟩ := h
  have hsort : cacheContent (loadMoreChildren cmp page s) =
      List.insertionSort (cmpLe cmp) (cacheContent s ++ mkNodes s.nextId page) :=
    cacheContent_loadMoreChildren cmp page s
  have hp : (List.insertionSort (cmpLe cmp) (cacheContent s ++ mkNodes s.nextId page)).Perm
      (cacheContent s ++ mkNodes s.nextId page) :=
    List.perm_insertionSort (cmpLe cmp) _
  refine ⟨?_, ?_, ?_⟩
  · rw [hsort]
    have h1 : ((List.insertionSort (cmpLe cmp) (cacheContent s ++ mkNodes s.nextId page)).map
        Node.treeItem).Perm ((cacheContent s ++ mkNodes s.nextId page).map Node.treeItem) :=
      hp.map _
    have h2 : (cacheContent s ++ mkNodes s.nextId page).map Node.treeItem =
        (cacheContent s).map Node.treeItem ++ page := by
      rw [List.map_append, mkNodes_map_treeItem]
    rw [h2] at h1
    exact h1.trans (hperm.append_right page)
  · intro n hn
    rw [hsort] at hn
    have hn' : n ∈ cacheContent s ++ mkNodes s.nextId page := hp.mem_iff.mp hn
    simp only [loadMoreChildren]
    rcases List.mem_append.mp hn' with h | h
    · have := hids n h; omega
    · have := mem_mkNodes_nodeId h; omega
  · rw [hsort]
    refine hp.nodup_iff.mpr (List.Nodup.append hdup (mkNodes_nodup _ _) ?_)
    intro n hn hn'
    have h1 := hids n hn
    have h2 := (mem_mkNodes_nodeId hn').1
    omega

theorem goodCache_runLoadPages (cmp : Node → Node → Int) :
    ∀ (pages : List (List TreeItemData)) (s : ParentState) (fetched : List TreeItemData),
    goodCache s fetched → goodCache (runLoadPages cmp pages s) (fetched ++ pages.flatten) := by
  intro pages
  induction pages with
  | nil => intro s fetched h; simpa [runLoadPages] using h
  | cons p ps ih =>
    intro s fetched h
    have step := goodCache_loadMoreChildren cmp p h
    have := ih (loadMoreChildren cmp p s) (fetched ++ p) step
    simpa [runLoadPages, List.foldl_cons, List.append_assoc] using this

theorem runLoadPages_cache_isSome (cmp : Node → Node → Int) :
    ∀ (pages : List (List TreeItemData)) (s : ParentState), pages ≠ [] →
    ∃ l, (runLoadPages cmp pages s).cachedChildren = some l := by
  intro pages
  induction pages with
  | nil => intro s h; exact absurd rfl h
  | cons p ps ih =>
    intro s _
    cases ps with
    | nil => exact ⟨_, rfl⟩
    | cons q qs =>
      have := ih (loadMoreChildren cmp p s) (by simp)
      simpa [runLoadPages, List.foldl_cons] using this

theorem runLoadPages_sorted (cmp : Node → Node → Int)
    (htot : ∀ a b : Node, cmpLe cmp a b ∨ cmpLe cmp b a)
    (htrans : ∀ a b c : Node, cmpLe cmp a b → cmpLe cmp b c → cmpLe cmp a c) :
    ∀ (pages : List (List TreeItemData)) (s : ParentState), pages ≠ [] →
    List.Sorted (cmpLe cmp) (cacheContent (runLoadPages cmp pages s)) := by
  haveI : IsTotal Node (cmpLe cmp) := ⟨htot⟩
  haveI : IsTrans Node (cmpLe cmp) := ⟨fun a b c => htrans a b c⟩
  intro pages
  induction pages with
  | nil => intro s h; exact absurd rfl h
  | cons p ps ih =>
    intro s _
    cases ps with
    | nil =>
      have : runLoadPages cmp [p] s = loadMoreChildren cmp p s := by
        simp [runLoadPages]
      rw [this, cacheContent_loadMoreChildren]
      exact List.sorted_insertionSort (cmpLe cmp) _
    | cons q qs =>
      have := ih (loadMoreChildren cmp p s) (by simp)
      simpa [runLoadPages, List.foldl_cons] using this

/-- C1: for every parent node and every sequence of `loadMoreChildren`
calls under an active comparator `cmp` (a consistent sort callback: total
and transitive, as the tree item's `compareChildren` must be for sorting
to mean anything, and as the default label callback is), the cache after
each call — the `k`-th, for any `k` — is a populated list that is sorted
by the active comparator, whose items are exactly the pages fetched by the
previous calls plus the page fetched by this call (a permutation of their
concatenation), and whose nodes contain no duplicates; in particular when
the fetched pages repeat no item, the cached item list has no duplicates.
-/
theorem claim_C1_loadMoreChildren_cache (cmp : Node → Node → Int)
    (htot : ∀ a b : Node, cmpLe cmp a b ∨ cmpLe cmp b a)
    (htrans : ∀ a b c : Node, cmpLe cmp a b → cmpLe cmp b c → cmpLe cmp a c)
    (pages : List (List TreeItemData)) (k : Nat) (hk : k < pages.length) :
    ∃ l : List Node,
      (runLoadPages cmp (pages.take (k + 1)) initState).cachedChildren = some l ∧
      List.Sorted (cmpLe cmp) l ∧
      (l.map Node.treeItem).Perm ((pages.take (k + 1)).flatten) ∧
      l.Nodup ∧
      (((pages.take (k + 1)).flatten).Nodup → (l.map Node.treeItem).Nodup) := by
  have hne : pages.take (k + 1) ≠ [] := by
    apply List.length_pos.mp
    rw [List.length_take]
    omega
  obtain ⟨l, hl⟩ := runLoadPages_cache_isSome cmp (pages.take (k + 1)) initState hne
  have hcc : cacheContent (runLoadPages cmp (pages.take (k + 1)) initState) = l := by
    simp [cacheContent, hl]
  obtain ⟨hperm, _, hdup⟩ :=
    goodCache_runLoadPages cmp (pages.take (k + 1)) initState [] goodCache_init
  rw [hcc] at hperm hdup
  simp only [List.nil_append] at hperm
  have hsorted := runLoadPages_sorted cmp htot htrans (pages.take (k + 1)) initState hne
  rw [hcc] at hsorted
  exact ⟨l, hl, hsorted, hperm, hdup, fun hnd => hperm.nodup_iff.mpr hnd⟩

/-- Witness for C1: the spec's end-to-end example (pages b,a then c) under
the default label comparator, after the second call. -/
theorem claim_C1_witness :
    1 < pagesExample.length ∧
    (∃ l : List Node,
      (runLoadPages defaultSortCallback (pagesExample.take 2) initState).cachedChildren = some l ∧
      List.Sorted (cmpLe defaultSortCallback) l ∧
      (l.map Node.treeItem).Perm ((pagesExample.take 2).flatten) ∧
      l.Nodup ∧
      (((pagesExample.take 2).flatten).Nodup → (l.map Node.treeItem).Nodup)) :=
  ⟨by decide,
   claim_C1_loadMoreChildren_cache defaultSortCallback labelLe_total labelLe_trans
     pagesExample 1 (by decide)⟩

/-! ### The sorted-cache invariant under all operations (C2) -/

/-- The invariant of claim C2: whenever the cache is populated, it is
sorted by the given ordering. -/
def labelSorted (s : ParentState) : Prop :=
  ∀ l, s.cachedChildren = some l → List.Sorted labelLe l

theorem labelSorted_of_cache_eq {s s1 : ParentState}
    (hc : s1.cachedChildren = s.cachedChildren) (h : labelSorted s) : labelSorted s1 :=
  fun l hl => h l (hc ▸ hl)

theorem labelSorted_addNodeToCache (n : Node) {s : ParentState} (h : labelSorted s) :
    labelSorted (addNodeToCache n s) := by
  haveI : IsTotal Node labelLe := ⟨labelLe_total⟩
  haveI : IsTrans Node labelLe := ⟨fun a b c => labelLe_trans a b c⟩
  intro l hl
  unfold addNodeToCache at hl
  cases hc : s.cachedChildren with
  | none => rw [hc] at hl; exact h l hl
  | some l0 =>
    rw [hc] at hl
    simp only [Option.some.injEq] at hl
    subst hl
    exact List.Sorted.orderedInsert n l0 (h l0 hc)

theorem labelSorted_removeNodeFromCache (n : Node) {s : ParentState} (h : labelSorted s) :
    labelSorted (removeNodeFromCache n s) := by
  intro l hl
  unfold removeNodeFromCache at hl
  cases hc : s.cachedChildren with
  | none => rw [hc] at hl; exact h l hl
  | some l0 =>
    rw [hc] at hl
    by_cases hmem : n ∈ l0
    · simp only [hmem, if_pos, Option.some.injEq] at hl
      subst hl
      exact List.Pairwise.sublist (List.erase_sublist ..) (h l0 hc)
    · simp only [hmem, if_neg, not_false_iff] at hl
      exact h l hl

theorem labelSorted_finallyCreating (c : Option Node) {s : ParentState}
    (h : labelSorted s) : labelSorted (finallyCreating c s) := by
  cases c with
  | none => exact h
  | some n => exact labelSorted_of_cache_eq rfl h

theorem labelSorted_createChild (lbl : Option Str) (res : Except Unit TreeItemData)
    {s : ParentState} (h : labelSorted s) : labelSorted (createChild true lbl res s).2 := by
  cases lbl with
  | none =>
    cases res with
    | ok t =>
      exact labelSorted_finallyCreating none
        (labelSorted_addNodeToCache _ (labelSorted_of_cache_eq rfl h))
    | error e =>
      exact labelSorted_finallyCreating none (labelSorted_of_cache_eq rfl h)
  | some lab =>
    cases res with
    | ok t =>
      exact labelSorted_finallyCreating _
        (labelSorted_addNodeToCache _ (labelSorted_of_cache_eq rfl h))
    | error e =>
      exact labelSorted_finallyCreating _ (labelSorted_of_cache_eq rfl h)

theorem labelSorted_applyOp {s : ParentState} (h : labelSorted s) (op : CacheOp) :
    labelSorted (applyOp defaultSortCallback s op) := by
  cases op with
  | loadMore page =>
    intro l hl
    haveI : IsTotal Node (cmpLe defaultSortCallback) := ⟨labelLe_total⟩
    haveI : IsTrans Node (cmpLe defaultSortCallback) := ⟨fun a b c => labelLe_trans a b c⟩
    simp only [applyOp, loadMoreChildren, Option.some.injEq] at hl
    subst hl
    exact List.sorted_insertionSort (cmpLe defaultSortCallback) _
  | create lbl res => exact labelSorted_createChild lbl res h
  | addNode n => exact labelSorted_addNodeToCache n h
  | removeNode n => exact labelSorted_removeNodeFromCache n h

theorem labelSorted_runOps (ops : List CacheOp) :
    ∀ s : ParentState, labelSorted s → labelSorted (runOps defaultSortCallback ops s) := by
  induction ops with
  | nil => intro s h; exact h
  | cons op ops ih =>
    intro s h
    exact ih (applyOp defaultSortCallback s op) (labelSorted_applyOp h op)

/-- C2 counterexample: the claim fails as stated. Under a custom
comparator (here the reversed label order, a legitimate
`compareChildren`), `loadMoreChildren` sorts the page b-before-a, but
`addNodeToCache` — which `createChild` inserts through — walks by plain
label order and appends c at the end, leaving a cache (b, a, c) that is
not sorted by the parent's comparison rule. -/
theorem claim_C2_counterexample :
    ¬ List.Sorted (cmpLe cmpRev)
      (cacheContent (runOps cmpRev
        [CacheOp.loadMore [itemOfLabel "a".data, itemOfLabel "b".data],
         CacheOp.addNode { nodeId := 100, treeItem := itemOfLabel "c".data }]
        initState)) := by decide

/-- C2 amended: under the default comparison rule (no custom
`compareChildren`, so the active comparator is the label order
`addNodeToCache` also uses), after any sequence of `loadMoreChildren`,
`createChild`, `addNodeToCache` and `removeNodeFromCache` operations the
populated cache is sorted by that rule. -/
theorem claim_C2_sorted_invariant_default (ops : List CacheOp) (l : List Node)
    (h : (runOps defaultSortCallback ops initState).cachedChildren = some l) :
    List.Sorted labelLe l := by
  have h0 : labelSorted initState := by
    intro l0 hl0
    simp [initState] at hl0
  exact labelSorted_runOps ops initState h0 l h

/-- Witness for C2 amended: one load of the page b,a leaves the cache
populated with a,b — sorted by label. -/
theorem claim_C2_witness :
    (runOps defaultSortCallback [CacheOp.loadMore [itemOfLabel "b".data, itemOfLabel "a".data]]
        initState).cachedChildren =
      some [{ nodeId := 1, treeItem := itemOfLabel "a".data },
            { nodeId := 0, treeItem := itemOfLabel "b".data }] ∧
    List.Sorted labelLe
      [{ nodeId := 1, treeItem := itemOfLabel "a".data },
       { nodeId := 0, treeItem := itemOfLabel "b".data }] :=
  ⟨by decide,
   claim_C2_sorted_invariant_default
     [CacheOp.loadMore [itemOfLabel "b".data, itemOfLabel "a".data]]
     [{ nodeId := 1, treeItem := itemOfLabel "a".data },
      { nodeId := 0, treeItem := itemOfLabel "b".data }] (by decide)⟩

/-! ### Placeholder cleanup in createChild (C3) -/

theorem addNodeToCache_eq_of_some (n : Node) {s : ParentState} {l : List Node}
    (h : s.cachedChildren = some l) :
    addNodeToCache n s =
      { s with
          cachedChildren := some (List.orderedInsert labelLe n l)
          refreshCount := s.refreshCount + 1 } := by
  unfold addNodeToCache
  rw [h]

theorem finallyCreating_some (n : Node) (s : ParentState) :
    finallyCreating (some n) s =
      { s with creatingNodes := s.creatingNodes.erase n, refreshCount := s.refreshCount + 1 } :=
  rfl

theorem createChild_none_ok (t : TreeItemData) (s : ParentState) :
    createChild true none (Except.ok t) s =
      (Except.ok { nodeId := s.nextId, treeItem := t },
       finallyCreating none
         (addNodeToCache { nodeId := s.nextId, treeItem := t }
           { s with nextId := s.nextId + 1 })) := rfl

theorem createChild_none_error (e : Unit) (s : ParentState) :
    createChild true none (Except.error e) s =
      (Except.error CreateErr.creationFailed, finallyCreating none s) := rfl

theorem createChild_some_ok (lab : Str) (t : TreeItemData) (s : ParentState) :
    createChild true (some lab) (Except.ok t) s =
      (Except.ok { nodeId := s.nextId + 1, treeItem := t },
       finallyCreating (some { nodeId := s.nextId, treeItem := creatingTreeItem lab })
         (addNodeToCache { nodeId := s.nextId + 1, treeItem := t }
           { s with
               creatingNodes :=
                 s.creatingNodes ++ [{ nodeId := s.nextId, treeItem := creatingTreeItem lab }]
               nextId := s.nextId + 1 + 1
               refreshCount := s.refreshCount + 1 })) := rfl

theorem createChild_some_error (lab : Str) (e : Unit) (s : ParentState) :
    createChild true (some lab) (Except.error e) s =
      (Except.error CreateErr.creationFailed,
       finallyCreating (some { nodeId := s.nextId, treeItem := creatingTreeItem lab })
         { s with
             creatingNodes :=
               s.creatingNodes ++ [{ nodeId := s.nextId, treeItem := creatingTreeItem lab }]
             nextId := s.nextId + 1
             refreshCount := s.refreshCount + 1 }) := rfl

/-- C3 counterexample: the claim fails as stated. On a parent whose cache
was never populated (`_cachedChildren` undefined), a successful
`createChild` whose callback installed no placeholder returns the new node
without inserting it into any cache and without firing any refresh
notification, against the claimed insertion into the sorted cache and the
parent-scoped refresh on success. -/
theorem claim_C3_counterexample :
    (createChild true none (Except.ok (itemOfLabel "new".data)) initState).1 =
        Except.ok { nodeId := 0, treeItem := itemOfLabel "new".data } ∧
    (createChild true none (Except.ok (itemOfLabel "new".data)) initState).2.cachedChildren =
        none ∧
    (createChild true none (Except.ok (itemOfLabel "new".data)) initState).2.refreshCount = 0 :=
  ⟨rfl, rfl, rfl⟩

theorem creatingNodes_addNodeToCache (n : Node) (s : ParentState) :
    (addNodeToCache n s).creatingNodes = s.creatingNodes := by
  unfold addNodeToCache
  cases hc : s.cachedChildren with
  | none => rfl
  | some l => rfl

theorem addNodeToCache_eq_of_none (n : Node) {s : ParentState}
    (h : s.cachedChildren = none) : addNodeToCache n s = s := by
  unfold addNodeToCache
  rw [h]

/-- C3 amended: for every `createChild` invocation on a parent supporting
child creation — whatever the creation outcome and whether or not the
child cache is populated — any placeholder the creation callback installed
is removed from `creatingNodes` before the call returns or throws (the
list is restored exactly); when the parent holds a populated child cache,
a successful creation inserts the new node into that cache and fires at
least one refresh notification scoped to the parent; and when the cache
was never populated, the node is not inserted (the cache stays
unpopulated) and, absent a placeholder, no refresh is fired at all. The
hypothesis states the allocation invariant every reachable parent
satisfies: nodes held so far have identities below the allocation counter
(in the source, the placeholder is a fresh object). -/
theorem claim_C3_createChild_cleanup (s : ParentState)
    (lbl : Option Str) (res : Except Unit TreeItemData)
    (hwf : ∀ n ∈ s.creatingNodes, n.nodeId < s.nextId) :
    (createChild true lbl res s).2.creatingNodes = s.creatingNodes ∧
    (∀ l : List Node, s.cachedChildren = some l →
      ∀ node : Node, (createChild true lbl res s).1 = Except.ok node →
        node ∈ cacheContent (createChild true lbl res s).2 ∧
        s.refreshCount < (createChild true lbl res s).2.refreshCount) ∧
    (s.cachedChildren = none →
      (createChild true lbl res s).2.cachedChildren = none ∧
      (lbl = none →
        (createChild true lbl res s).2.refreshCount = s.refreshCount)) := by
  cases lbl with
  | none =>
    cases res with
    | ok t =>
      rw [createChild_none_ok]
      refine ⟨?_, fun l hl node hnode => ?_, fun hnone => ?_⟩
      · show (addNodeToCache { nodeId := s.nextId, treeItem := t }
            { s with nextId := s.nextId + 1 }).creatingNodes = s.creatingNodes
        exact creatingNodes_addNodeToCache _ _
      · rw [addNodeToCache_eq_of_some { nodeId := s.nextId, treeItem := t }
            (show ({ s with nextId := s.nextId + 1 } : ParentState).cachedChildren = some l
              from hl)]
        have hn : { nodeId := s.nextId, treeItem := t : Node } = node := by
          injection hnode
        constructor
        · rw [← hn]
          simp only [finallyCreating, cacheContent, Option.getD]
          exact (List.mem_orderedInsert labelLe).mpr (Or.inl rfl)
        · simp only [finallyCreating]
          omega
      · rw [addNodeToCache_eq_of_none { nodeId := s.nextId, treeItem := t }
            (show ({ s with nextId := s.nextId + 1 } : ParentState).cachedChildren = none
              from hnone)]
        exact ⟨hnone, fun _ => rfl⟩
    | error e =>
      rw [createChild_none_error]
      refine ⟨rfl, fun l hl node hnode => ?_, fun hnone => ⟨hnone, fun _ => rfl⟩⟩
      simp at hnode
  | some lab =>
    have hfresh : { nodeId := s.nextId, treeItem := creatingTreeItem lab : Node } ∉
        s.creatingNodes := by
      intro hmem
      exact absurd rfl (Nat.ne_of_lt (hwf _ hmem))
    cases res with
    | ok t =>
      rw [createChild_some_ok, finallyCreating_some]
      refine ⟨?_, fun l hl node hnode => ?_, fun hnone => ?_⟩
      · rw [creatingNodes_addNodeToCache]
        show (s.creatingNodes ++
            [({ nodeId := s.nextId, treeItem := creatingTreeItem lab } : Node)]).erase
            ({ nodeId := s.nextId, treeItem := creatingTreeItem lab } : Node) = s.creatingNodes
        rw [List.erase_append_right _ hfresh, List.erase_cons_head, List.append_nil]
      · rw [addNodeToCache_eq_of_some { nodeId := s.nextId + 1, treeItem := t }
            (show ({ s with
                creatingNodes :=
                  s.creatingNodes ++ [{ nodeId := s.nextId, treeItem := creatingTreeItem lab }]
                nextId := s.nextId + 1 + 1
                refreshCount := s.refreshCount + 1 } : ParentState).cachedChildren = some l
              from hl)]
        have hn : { nodeId := s.nextId + 1, treeItem := t : Node } = node := by
          injection hnode
        constructor
        · rw [← hn]
          simp only [cacheContent, Option.getD]
          exact (List.mem_orderedInsert labelLe).mpr (Or.inl rfl)
        · show s.refreshCount < s.refreshCount + 1 + 1 + 1
          omega
      · rw [addNodeToCache_eq_of_none { nodeId := s.nextId + 1, treeItem := t }
            (show ({ s with
                creatingNodes :=
                  s.creatingNodes ++ [{ nodeId := s.nextId, treeItem := creatingTreeItem lab }]
                nextId := s.nextId + 1 + 1
                refreshCount := s.refreshCount + 1 } : ParentState).cachedChildren = none
              from hnone)]
        exact ⟨hnone, fun h => Option.noConfusion h⟩
    | error e =>
      rw [createChild_some_error, finallyCreating_some]
      refine ⟨?_, fun l hl node hnode => ?_,
        fun hnone => ⟨hnone, fun h => Option.noConfusion h⟩⟩
      · show (s.creatingNodes ++
            [({ nodeId := s.nextId, treeItem := creatingTreeItem lab } : Node)]).erase
            ({ nodeId := s.nextId, treeItem := creatingTreeItem lab } : Node) = s.creatingNodes
        rw [List.erase_append_right _ hfresh, List.erase_cons_head, List.append_nil]
      · simp at hnode

/-- Witness for C3 amended: a creation that installed a placeholder on a
parent with a populated (empty) cache restores `creatingNodes`, inserts
the new node and fires a refresh; and a failing creation on a
never-populated parent also restores `creatingNodes`, leaves the cache
unpopulated and fires no refresh. -/
theorem claim_C3_witness :
    (createChild true (some "creating".data) (Except.ok (itemOfLabel "x".data))
        cacheSt).2.creatingNodes = cacheSt.creatingNodes ∧
    ({ nodeId := 1, treeItem := itemOfLabel "x".data } ∈
      cacheContent (createChild true (some "creating".data) (Except.ok (itemOfLabel "x".data))
        cacheSt).2 ∧
      cacheSt.refreshCount <
        (createChild true (some "creating".data) (Except.ok (itemOfLabel "x".data))
          cacheSt).2.refreshCount) ∧
    (createChild true none (Except.error ()) initState).2.creatingNodes =
      initState.creatingNodes ∧
    (createChild true none (Except.error ()) initState).2.cachedChildren = none ∧
    (createChild true none (Except.error ()) initState).2.refreshCount =
      initState.refreshCount :=
  ⟨(claim_C3_createChild_cleanup cacheSt (some "creating".data)
      (Except.ok (itemOfLabel "x".data)) (by simp [cacheSt])).1,
   (claim_C3_createChild_cleanup cacheSt (some "creating".data)
      (Except.ok (itemOfLabel "x".data)) (by simp [cacheSt])).2.1 [] rfl
     { nodeId := 1, treeItem := itemOfLabel "x".data } rfl,
   (claim_C3_createChild_cleanup initState none (Except.error ())
      (by simp [initState])).1,
   ((claim_C3_createChild_cleanup initState none (Except.error ())
      (by simp [initState])).2.2 rfl).1,
   ((claim_C3_createChild_cleanup initState none (Except.error ())
      (by simp [initState])).2.2 rfl).2 rfl⟩

/-! ### The node picker walk (C4) -/

/-- C4: any node the `showNodePicker` walk returns has a context value in
the expected set; and when the walk reaches a node that is not a parent
node and whose context value is not expected, it fails with the distinct
no-matching-resources error rather than returning a node of the wrong tag.
The outcome each `pickChildNode` call resolves to (cached-child match or
user selection) is the oracle `picks` feeding the loop, so in particular a
pick that resolves to a non-parent of the wrong tag ends in that error. -/
theorem claim_C4_showNodePicker :
    (∀ (expected : List String) (start : PickNode) (picks : List PickNode) (node : PickNode),
      showNodePickerLoop expected start picks = some (Except.ok node) →
      node.contextValue ∈ expected) ∧
    (∀ (expected : List String) (node : PickNode) (picks : List PickNode),
      node.isParent = false → node.contextValue ∉ expected →
      showNodePickerLoop expected node picks = some (Except.error noResourcesMessage)) := by
  constructor
  · intro expected start picks
    induction picks generalizing start with
    | nil =>
      intro node h
      unfold showNodePickerLoop at h
      by_cases hc : start.contextValue ∈ expected
      · rw [if_pos hc] at h
        simp only [Option.some.injEq, Except.ok.injEq] at h
        subst h
        exact hc
      · rw [if_neg hc] at h
        by_cases hp : start.isParent = true
        · rw [if_pos hp] at h
          simp at h
        · rw [if_neg hp] at h
          simp at h
    | cons p rest ih =>
      intro node h
      unfold showNodePickerLoop at h
      by_cases hc : start.contextValue ∈ expected
      · rw [if_pos hc] at h
        simp only [Option.some.injEq, Except.ok.injEq] at h
        subst h
        exact hc
      · rw [if_neg hc] at h
        by_cases hp : start.isParent = true
        · rw [if_pos hp] at h
          exact ih p node h
        · rw [if_neg hp] at h
          simp at h
  · intro expected node picks hp hc
    cases picks with
    | nil =>
      unfold showNodePickerLoop
      rw [if_neg hc, if_neg (by simp [hp])]
    | cons p rest =>
      unfold showNodePickerLoop
      rw [if_neg hc, if_neg (by simp [hp])]

/-- Witness for C4: a walk from a subscription parent through one pick
returns only the expected tag, and a wrong-tag leaf gives the distinct
error. -/
theorem claim_C4_witness :
    ({ isParent := false, contextValue := "appService" } : PickNode).contextValue ∈
        ["appService"] ∧
    showNodePickerLoop ["appService"] { isParent := false, contextValue := "other" } [] =
        some (Except.error noResourcesMessage) :=
  ⟨claim_C4_showNodePicker.1 ["appService"]
      { isParent := true, contextValue := "subscription" }
      [{ isParent := false, contextValue := "appService" }]
      { isParent := false, contextValue := "appService" } (by decide),
   claim_C4_showNodePicker.2 ["appService"] { isParent := false, contextValue := "other" } []
      rfl (by decide)⟩

/-! ### Zip lifecycle in the deploy workflows (C5) -/

/-- C5 counterexample: the claim fails as stated. The deploy-zip workflow
invoked on a directory path with the overwrite confirmation declined is an
exit path (an unhandled user-cancellation error) on which no zip at all is
created — not exactly one; the same holds when obtaining the Kudu client
fails. -/
theorem claim_C5_counterexample :
    (deployZip PathKind.directory true false true PushOutcome.success).zipsCreated = 0 ∧
    (deployZip PathKind.directory true false true PushOutcome.success).result =
      Except.error DeployZipErr.userCancelled :=
  ⟨rfl, rfl⟩

/-- C5 amended: on every exit path at most one zip is created and any zip
created during the call no longer exists when the call returns; a
directory-path invocation that passes the confirmation and the Kudu-client
step (and every directory-path deployRunFromZip invocation) creates
exactly one zip; and when the input path is already a zip file, no zip is
created and the input file is not deleted. -/
theorem claim_C5_zip_cleanup (kind : PathKind) (confirmDeployment confirmYes kuduOk : Bool)
    (push : PushOutcome) :
    (deployZip kind confirmDeployment confirmYes kuduOk push).createdZipAtReturn = false ∧
    (deployZip kind confirmDeployment confirmYes kuduOk push).zipsCreated ≤ 1 ∧
    (kind = PathKind.zipFile →
      (deployZip kind confirmDeployment confirmYes kuduOk push).zipsCreated = 0 ∧
      (deployZip kind confirmDeployment confirmYes kuduOk push).inputDeleted = false) ∧
    (kind = PathKind.directory → (confirmDeployment = true → confirmYes = true) →
      kuduOk = true →
      (deployZip kind confirmDeployment confirmYes kuduOk push).zipsCreated = 1) ∧
    (deployRunFromZip kind push).createdZipAtReturn = false ∧
    (kind = PathKind.directory → (deployRunFromZip kind push).zipsCreated = 1) := by
  cases kind <;> cases confirmDeployment <;> cases confirmYes <;> cases kuduOk <;>
    simp [deployZip, deployRunFromZip]

/-- Witness for C5 amended: a confirmed directory deployment creates
exactly one zip and none survives the return; the storage variant
likewise, even on a failing upload. -/
theorem claim_C5_witness :
    (deployZip PathKind.directory true true true PushOutcome.success).zipsCreated = 1 ∧
    (deployZip PathKind.directory true true true PushOutcome.success).createdZipAtReturn =
      false ∧
    (deployRunFromZip PathKind.directory PushOutcome.errorNoBody).zipsCreated = 1 :=
  ⟨(claim_C5_zip_cleanup PathKind.directory true true true PushOutcome.success).2.2.2.1 rfl
      (fun _ => rfl) rfl,
   (claim_C5_zip_cleanup PathKind.directory true true true PushOutcome.success).1,
   (claim_C5_zip_cleanup PathKind.directory true true true
      PushOutcome.errorNoBody).2.2.2.2.2 rfl⟩

/-! ### The deployment poll loop (C6) -/

theorem queryIdAt_succ_eq (svc : Nat → String → DeployResult) (k : Nat) :
    nextDeploymentId (queryIdAt svc k) (obsAt svc k) = queryIdAt svc (k + 1) := rfl

theorem pollLoop_complete {svc : Nat → String → DeployResult} {interval fuel k : Nat}
    {deploymentId : String} {d : DeployResult} (h : d.complete = true) :
    pollLoop svc interval fuel k deploymentId d =
      { result := some d, queriedIds := [], logs := [], sleeps := [] } := by
  unfold pollLoop
  rw [if_pos h]

theorem pollLoop_zero {svc : Nat → String → DeployResult} {interval k : Nat}
    {deploymentId : String} {d : DeployResult} (h : ¬ d.complete = true) :
    pollLoop svc interval 0 k deploymentId d =
      { result := none, queriedIds := [], logs := progressLogs d, sleeps := [] } := by
  unfold pollLoop
  rw [if_neg h]

theorem pollLoop_succ {svc : Nat → String → DeployResult} {interval fuel k : Nat}
    {deploymentId : String} {d : DeployResult} (h : ¬ d.complete = true) :
    pollLoop svc interval (fuel + 1) k deploymentId d =
      { result := (pollLoop svc interval fuel (k + 1) (nextDeploymentId deploymentId d)
          (svc k (nextDeploymentId deploymentId d))).result
        queriedIds := nextDeploymentId deploymentId d ::
          (pollLoop svc interval fuel (k + 1) (nextDeploymentId deploymentId d)
            (svc k (nextDeploymentId deploymentId d))).queriedIds
        logs := progressLogs d ++
          (pollLoop svc interval fuel (k + 1) (nextDeploymentId deploymentId d)
            (svc k (nextDeploymentId deploymentId d))).logs
        sleeps := interval ::
          (pollLoop svc interval fuel (k + 1) (nextDeploymentId deploymentId d)
            (svc k (nextDeploymentId deploymentId d))).sleeps } := by
  conv_lhs => unfold pollLoop
  rw [if_neg h]

theorem pollLoop_spec (svc : Nat → String → DeployResult) (interval : Nat) :
    ∀ fuel k : Nat,
      (∀ d, (pollLoop svc interval fuel (k + 1) (queryIdAt svc k) (obsAt svc k)).result =
          some d → d.complete = true) ∧
      (∀ t ∈ (pollLoop svc interval fuel (k + 1) (queryIdAt svc k) (obsAt svc k)).sleeps,
        t = interval) ∧
      (∃ m, (pollLoop svc interval fuel (k + 1) (queryIdAt svc k) (obsAt svc k)).queriedIds =
        (List.range' (k + 1) m).map (queryIdAt svc)) ∧
      (∃ n, (pollLoop svc interval fuel (k + 1) (queryIdAt svc k) (obsAt svc k)).logs =
        ((List.range' k n).map (obsAt svc)).filterMap DeployResult.progress) := by
  intro fuel
  induction fuel with
  | zero =>
    intro k
    by_cases h : (obsAt svc k).complete = true
    · rw [pollLoop_complete h]
      refine ⟨fun d hd => ?_, by simp, ⟨0, by simp⟩, ⟨0, by simp⟩⟩
      simp only [Option.some.injEq] at hd
      rw [← hd]
      exact h
    · rw [pollLoop_zero h]
      refine ⟨fun d hd => by simp at hd, by simp, ⟨0, by simp⟩, ⟨1, ?_⟩⟩
      cases hp : (obsAt svc k).progress <;>
        simp [progressLogs, hp, List.range'_succ]
  | succ fuel ih =>
    intro k
    by_cases h : (obsAt svc k).complete = true
    · rw [pollLoop_complete h]
      refine ⟨fun d hd => ?_, by simp, ⟨0, by simp⟩, ⟨0, by simp⟩⟩
      simp only [Option.some.injEq] at hd
      rw [← hd]
      exact h
    · rw [pollLoop_succ h, queryIdAt_succ_eq]
      obtain ⟨ih1, ih2, ⟨m, hm⟩, ⟨n, hn⟩⟩ := ih (k + 1)
      refine ⟨?_, ?_, ⟨m + 1, ?_⟩, ⟨n + 1, ?_⟩⟩
      · intro d hd
        exact ih1 d hd
      · intro t ht
        rcases List.mem_cons.mp ht with h1 | h1
        · exact h1
        · exact ih2 t h1
      · rw [List.range'_succ, List.map_cons, ← hm]
        rfl
      · cases hp : (obsAt svc k).progress with
        | some p =>
          rw [List.range'_succ, List.map_cons, List.filterMap_cons, hp, ← hn]
          show progressLogs (obsAt svc k) ++ _ = _
          rw [show progressLogs (obsAt svc k) = [p] by rw [progressLogs, hp]]
          rfl
        | none =>
          rw [List.range'_succ, List.map_cons, List.filterMap_cons, hp, ← hn]
          show progressLogs (obsAt svc k) ++ _ = _
          rw [show progressLogs (obsAt svc k) = [] by rw [progressLogs, hp]]
          rfl

/-- C6: the poll loop never returns a deployment whose complete flag is
false (a returned result is complete; fuel exhaustion returns nothing, so
the loop ends only on a complete result or not at all); every wait between
polls is the fixed polling interval; the ids the `getResult` calls query
follow the source's discipline — the sentinel latest first, switching to
the reported permanent id of a non-temporary deployment as soon as one is
observed (`queryIdAt`); and the log is exactly the progress texts of the
incomplete polls that carried one. -/
theorem claim_C6_waitForDeployment (svc : Nat → String → DeployResult)
    (fuel pollingInterval : Nat) :
    (∀ d, (waitForDeploymentToComplete svc fuel pollingInterval).result = some d →
      d.complete = true) ∧
    (∀ t ∈ (waitForDeploymentToComplete svc fuel pollingInterval).sleeps,
      t = pollingInterval) ∧
    (∃ m, 1 ≤ m ∧ (waitForDeploymentToComplete svc fuel pollingInterval).queriedIds =
      (List.range' 0 m).map (queryIdAt svc)) ∧
    (∃ n, (waitForDeploymentToComplete svc fuel pollingInterval).logs =
      ((List.range' 0 n).map (obsAt svc)).filterMap DeployResult.progress) := by
  obtain ⟨h1, h2, ⟨m, hm⟩, ⟨n, hn⟩⟩ := pollLoop_spec svc pollingInterval fuel 0
  refine ⟨fun d hd => h1 d hd, fun t ht => h2 t ht, ⟨m + 1, by omega, ?_⟩, ⟨n, hn⟩⟩
  show "latest" :: (pollLoop svc pollingInterval fuel (0 + 1) (queryIdAt svc 0)
      (obsAt svc 0)).queriedIds = _
  rw [List.range'_succ, List.map_cons, ← hm]
  rfl

/-- Witness for C6: a service that reports one incomplete non-temporary
deployment carrying a permanent id and a progress text, then a complete
one: the call returns the complete deployment, after logging the progress
text. -/
theorem claim_C6_witness :
    (waitForDeploymentToComplete svcExample 5 5000).result =
      some { id := some "d1", isTemp := false, complete := true, progress := none } ∧
    DeployResult.complete
      { id := some "d1", isTemp := false, complete := true, progress := none } = true ∧
    (waitForDeploymentToComplete svcExample 5 5000).logs = ["Building"] ∧
    (waitForDeploymentToComplete svcExample 5 5000).queriedIds = ["latest", "d1"] :=
  ⟨by decide,
   (claim_C6_waitForDeployment svcExample 5 5000).1
     { id := some "d1", isTemp := false, complete := true, progress := none } (by decide),
   by decide, by decide⟩

/-! ### The SCM edit workflow (C7) -/

/-- C7 counterexample: the claim fails as stated. Selecting GitHub while
the current type is None is neither a cancellation nor the configuration
error, so the claim's remaining branch demands a complete configuration
object with the new scmType be sent; the code instead delegates to the
GitHub-connection flow, issues no updateConfiguration call of its own, and
still returns the new type. -/
theorem claim_C7_counterexample :
    (editScmType cfgNone "GitHub").result = Except.ok "GitHub" ∧
    (editScmType cfgNone "GitHub").updateCalledWith = none ∧
    (editScmType cfgNone "GitHub").gitHubConnectCalled = true := by
  refine ⟨by decide, by decide, by decide⟩

/-- C7 amended: selecting the currently active source type raises a
user-cancellation signal and issues no configuration-update call;
otherwise selecting GitHub while the current type is not None fails with
the configuration error and issues no update call; selecting GitHub with
current type None invokes the GitHub-connection flow — with no direct
configuration-update call from editScmType — and returns GitHub; any
other selection sends a complete configuration object carrying the new
scmType and returns the new type. -/
theorem claim_C7_editScmType (config : SiteConfig) (choice : String) :
    (choice = config.scmType →
      (editScmType config choice).result = Except.error ScmEditErr.userCancelled ∧
      (editScmType config choice).updateCalledWith = none) ∧
    (choice ≠ config.scmType → choice = "GitHub" → config.scmType ≠ "None" →
      (editScmType config choice).result =
        Except.error (ScmEditErr.configurationError configurationErrorMessage) ∧
      (editScmType config choice).updateCalledWith = none) ∧
    (choice ≠ config.scmType → choice = "GitHub" → config.scmType = "None" →
      (editScmType config choice).result = Except.ok choice ∧
      (editScmType config choice).updateCalledWith = none ∧
      (editScmType config choice).gitHubConnectCalled = true) ∧
    (choice ≠ config.scmType → choice ≠ "GitHub" →
      (editScmType config choice).result = Except.ok choice ∧
      (editScmType config choice).updateCalledWith =
        some { scmType := choice, otherSettings := config.otherSettings }) := by
  refine ⟨?_, ?_, ?_, ?_⟩
  · intro h
    simp [editScmType, showScmPrompt, h]
  · intro h1 h2 h3
    subst h2
    simp [editScmType, showScmPrompt, h1, h3]
  · intro h1 h2 h3
    subst h2
    simp [editScmType, showScmPrompt, h1, h3]
  · intro h1 h2
    simp [editScmType, showScmPrompt, h1, h2]

/-- Witness for C7 amended against a LocalGit configuration: re-selecting
LocalGit cancels with no update; selecting GitHub errors with no update;
selecting None sends the complete configuration with the new type. -/
theorem claim_C7_witness :
    ((editScmType cfgLocalGit "LocalGit").result = Except.error ScmEditErr.userCancelled ∧
     (editScmType cfgLocalGit "LocalGit").updateCalledWith = none) ∧
    ((editScmType cfgLocalGit "GitHub").result =
       Except.error (ScmEditErr.configurationError configurationErrorMessage) ∧
     (editScmType cfgLocalGit "GitHub").updateCalledWith = none) ∧
    ((editScmType cfgLocalGit "None").result = Except.ok "None" ∧
     (editScmType cfgLocalGit "None").updateCalledWith =
       some { scmType := "None", otherSettings := cfgLocalGit.otherSettings }) :=
  ⟨(claim_C7_editScmType cfgLocalGit "LocalGit").1 (by decide),
   (claim_C7_editScmType cfgLocalGit "GitHub").2.1 (by decide) rfl (by decide),
   (claim_C7_editScmType cfgLocalGit "None").2.2.2 (by decide) (by decide)⟩

/-! ### The site deletion workflow (C8) -/

/-- C8: after the user confirms deletion, a non-slot target whose plan has
exactly one site gets the plan-deletion prompt shown, and the delete call
carries the deleteEmptyServerFarm flag chosen there (yes sets it, no
clears it); a deployment-slot target performs no App Service plan lookup
at all and sees no plan prompt. -/
theorem claim_C8_deleteSite (isSlot confirmYes : Bool) (planNumberOfSites : Nat)
    (ans : PlanPromptAnswer) (hconfirm : confirmYes = true) :
    (isSlot = false → planNumberOfSites = 1 →
      (deleteSite isSlot confirmYes planNumberOfSites ans).planPromptShown = true ∧
      (ans = PlanPromptAnswer.yes →
        (deleteSite isSlot confirmYes planNumberOfSites ans).result =
          Except.ok (DeleteCall.siteDelete true)) ∧
      (ans = PlanPromptAnswer.no →
        (deleteSite isSlot confirmYes planNumberOfSites ans).result =
          Except.ok (DeleteCall.siteDelete false))) ∧
    (isSlot = true →
      (deleteSite isSlot confirmYes planNumberOfSites ans).planLookups = 0 ∧
      (deleteSite isSlot confirmYes planNumberOfSites ans).planPromptShown = false) := by
  subst hconfirm
  constructor
  · intro hslot hone
    subst hslot
    subst hone
    cases ans <;> simp [deleteSite]
  · intro hslot
    subst hslot
    simp [deleteSite]

/-- Witness for C8: a confirmed deletion of a non-slot whose plan has one
site shows the prompt and sends the flag; a confirmed slot deletion does
no plan lookup and shows no prompt. -/
theorem claim_C8_witness :
    ((deleteSite false true 1 PlanPromptAnswer.yes).planPromptShown = true ∧
     (deleteSite false true 1 PlanPromptAnswer.yes).result =
       Except.ok (DeleteCall.siteDelete true)) ∧
    ((deleteSite true true 1 PlanPromptAnswer.yes).planLookups = 0 ∧
     (deleteSite true true 1 PlanPromptAnswer.yes).planPromptShown = false) :=
  ⟨⟨((claim_C8_deleteSite false true 1 PlanPromptAnswer.yes rfl).1 rfl rfl).1,
    ((claim_C8_deleteSite false true 1 PlanPromptAnswer.yes rfl).1 rfl rfl).2.1 rfl⟩,
   (claim_C8_deleteSite true true 1 PlanPromptAnswer.yes rfl).2 rfl⟩

/-! ### The getChildren error shield (C9) -/

/-- C9: getChildren never lets an exception reach the host UI: a child
computation that returns nodes yields exactly those nodes, and one that
throws yields the single-element list holding a synthetic leaf whose label
prefixes the parsed message with Error and whose context value is the
error tag. -/
theorem claim_C9_getChildren_error_leaf :
    (∀ nodes : List UINode, getChildren (Except.ok nodes) = nodes) ∧
    (∀ e : ParsedError, getChildren (Except.error e) =
      [{ label := "Error: " ++ e.message, contextValue := "azureextensionui.error" }]) ∧
    (∀ e : ParsedError, (getChildren (Except.error e)).length = 1) :=
  ⟨fun _ => rfl, fun _ => rfl, fun _ => rfl⟩

/-! ### parseAzureResourceId (C10) -/

theorem evenOddPairs_nil : evenOddPairs [] = [] := rfl

theorem evenOddPairs_cons_cons (k v : Str) (rest : List Str) :
    evenOddPairs (k :: v :: rest) = (k, v) :: evenOddPairs rest := by
  unfold evenOddPairs
  have hlen : (k :: v :: rest).length / 2 = rest.length / 2 + 1 := by
    simp only [List.length_cons]
    omega
  rw [hlen, List.range_succ_eq_map, List.map_cons, List.map_map]
  congr 1

theorem pairUp_even_spec : ∀ parts : List Str, parts.length % 2 = 0 →
    (([] : Str) ∈ parts → pairUp parts = Except.error invalidIdMessage) ∧
    (([] : Str) ∉ parts → pairUp parts = Except.ok (evenOddPairs parts)) := by
  intro parts
  induction parts using pairUp.induct with
  | case1 =>
    intro _
    exact ⟨fun h => absurd h (List.not_mem_nil _),
      fun _ => by rw [evenOddPairs_nil]; rfl⟩
  | case2 x =>
    intro h
    simp at h
  | case3 k v rest hkv =>
    intro _
    refine ⟨fun _ => ?_, fun hmem => ?_⟩
    · unfold pairUp
      rw [if_pos hkv]
    · exfalso
      rcases hkv with h | h <;> (subst h; simp at hmem)
  | case4 k v rest hkv ih =>
    intro heven
    simp only [List.length_cons] at heven
    have heven1 : rest.length % 2 = 0 := by omega
    obtain ⟨ih1, ih2⟩ := ih heven1
    have hk : k ≠ [] ∧ v ≠ [] := by
      constructor <;> (intro h; exact hkv (by tauto))
    refine ⟨fun hmem => ?_, fun hmem => ?_⟩
    · have hmem1 : ([] : Str) ∈ rest := by
        rcases List.mem_cons.mp hmem with h | h
        · exact absurd h.symm hk.1
        · rcases List.mem_cons.mp h with h2 | h2
          · exact absurd h2.symm hk.2
          · exact h2
      unfold pairUp
      rw [if_neg hkv, ih1 hmem1]
      rfl
    · have hnk : ([] : Str) ∉ rest := fun h => hmem (by simp [h])
      unfold pairUp
      rw [if_neg hkv, ih2 hnk, evenOddPairs_cons_cons]
      rfl

/-- C10: parseAzureResourceId throws the Invalid Account ID error exactly
when the input string is empty, shorter than two characters, does not
start with a slash, splits (after the leading slash) into an odd number of
slash-separated segments, or contains an empty segment among those parts;
otherwise it returns the map pairing each even-indexed segment (key) with
the following odd-indexed segment (value). -/
theorem claim_C10_parseAzureResourceId (resourceId : Str) :
    (parseAzureResourceId resourceId = Except.error invalidIdMessage ↔
      (resourceId = [] ∨ resourceId.length < 2 ∨ resourceId.take 1 ≠ ['/'] ∨
       (splitOnChar '/' (resourceId.drop 1)).length % 2 = 1 ∨
       ([] : Str) ∈ splitOnChar '/' (resourceId.drop 1))) ∧
    (∀ m, parseAzureResourceId resourceId = Except.ok m →
      m = evenOddPairs (splitOnChar '/' (resourceId.drop 1))) := by
  unfold parseAzureResourceId
  by_cases hg : resourceId = [] ∨ resourceId.length < 2 ∨ resourceId.take 1 ≠ ['/']
  · rw [if_pos hg]
    refine ⟨⟨fun _ => ?_, fun _ => rfl⟩, fun m hm => by simp at hm⟩
    tauto
  · rw [if_neg hg]
    push_neg at hg
    obtain ⟨hne, hlen, hslash⟩ := hg
    by_cases hodd : (splitOnChar '/' (resourceId.drop 1)).length % 2 ≠ 0
    · rw [if_pos hodd]
      refine ⟨⟨fun _ => ?_, fun _ => rfl⟩, fun m hm => by simp at hm⟩
      have h1 : (splitOnChar '/' (resourceId.drop 1)).length % 2 = 1 := by omega
      tauto
    · rw [if_neg hodd]
      have heven : (splitOnChar '/' (resourceId.drop 1)).length % 2 = 0 := by omega
      obtain ⟨perr, pok⟩ := pairUp_even_spec _ heven
      constructor
      · constructor
        · intro herr
          by_cases hmem : ([] : Str) ∈ splitOnChar '/' (resourceId.drop 1)
          · tauto
          · rw [pok hmem] at herr
            simp at herr
        · intro hconds
          have hmem : ([] : Str) ∈ splitOnChar '/' (resourceId.drop 1) := by
            rcases hconds with h | h | h | h | h
            · exact absurd h hne
            · exact absurd h (by omega)
            · exact absurd hslash h
            · exact absurd h (by omega)
            · exact h
          exact perr hmem
      · intro m hm
        by_cases hmem : ([] : Str) ∈ splitOnChar '/' (resourceId.drop 1)
        · rw [perr hmem] at hm
          simp at hm
        · rw [pok hmem] at hm
          simp only [Except.ok.injEq] at hm
          exact hm.symm

/-- Witness for C10: a well-formed two-pair resource id parses to its
key-value pairs, which are exactly the even-odd pairing of its segments.
-/
theorem claim_C10_witness :
    parseAzureResourceId "/subscriptions/abc/resourceGroups/rg".data =
      Except.ok
        [("subscriptions".data, "abc".data), ("resourceGroups".data, "rg".data)] ∧
    [("subscriptions".data, "abc".data), ("resourceGroups".data, "rg".data)] =
      evenOddPairs (splitOnChar '/' (("/subscriptions/abc/resourceGroups/rg".data).drop 1)) :=
  ⟨by decide,
   (claim_C10_parseAzureResourceId "/subscriptions/abc/resourceGroups/rg".data).2
     [("subscriptions".data, "abc".data), ("resourceGroups".data, "rg".data)] (by decide)⟩

end AzureTools
